import Mathlib

set_option maxRecDepth 8000

/-!
# CodePulse — verification of the metrics core

Shallow embedding of the CodePulse metrics core (complexity analysis,
metric cache, scheduling/session tracking) together with theorems
settling the specification claims.

Conventions of the embedding:

* JavaScript `Map` objects are modelled as insertion-ordered association
  lists (`Map.set` on an existing key updates in place and keeps the
  position; on a fresh key it appends).
* `Date.now()` is modelled by an explicit `now : Nat` parameter
  (milliseconds); all methods that read the clock take it as an argument.
* Cache keys are file-path strings in the source; only equality on keys
  is used, so the embedding is generic in the key type `K` with
  decidable equality.
-/

namespace CodePulse

/-- One step of the insertion-ordered map update: JavaScript
`Map.prototype.set` keeps the position of an existing key and appends a
fresh key at the end. -/
def mapSet {K V : Type} [DecidableEq K] : List (K × V) → K → V → List (K × V)
  | [], k, v => [(k, v)]
  | (k₀, v₀) :: rest, k, v =>
      if k₀ = k then (k, v) :: rest else (k₀, v₀) :: mapSet rest k v

/-- JavaScript `Map.prototype.get`: first binding of the key, if any. -/
def mapGet {K V : Type} [DecidableEq K] : List (K × V) → K → Option V
  | [], _ => none
  | (k₀, v₀) :: rest, k => if k₀ = k then some v₀ else mapGet rest k

/-- JavaScript `Map.prototype.delete`: removes the binding of the key. -/
def mapDelete {K V : Type} [DecidableEq K] : List (K × V) → K → List (K × V)
  | [], _ => []
  | (k₀, v₀) :: rest, k =>
      if k₀ = k then rest else (k₀, v₀) :: mapDelete rest k

/-- Entry stored by `MetricCache`: `{ data: T; timestamp: number }`
(`src/utils/cache.ts`). -/
structure CacheEntry (T : Type) where
  data : T
  timestamp : Nat
  deriving DecidableEq, Repr

/-- `MetricCache<T>` (`src/utils/cache.ts`): a bounded, TTL-limited
key-value store backed by a JavaScript `Map`. -/
structure MetricCache (K T : Type) where
  cache : List (K × CacheEntry T)
  deriving DecidableEq, Repr

namespace MetricCache

/-- `MAX_CACHE_SIZE = 500` (`src/utils/cache.ts`). -/
def MAX_CACHE_SIZE : Nat := 500

/-- `CACHE_EXPIRY = 86_400_000` ms, i.e. 24 hours (`src/utils/cache.ts`). -/
def CACHE_EXPIRY : Nat := 86400000

/-- The empty cache (fresh `MetricCache` instance). -/
def empty {K T : Type} : MetricCache K T := ⟨[]⟩

/-- `isEntryExpired` (`src/utils/cache.ts` lines 96–98):
`Date.now() - entry.timestamp > CACHE_EXPIRY`.  With a monotone clock
`now ≥ timestamp`; for `now < timestamp` JavaScript yields a negative
difference and the comparison is false, matching truncated `Nat`
subtraction. -/
def isEntryExpired {T : Type} (now : Nat) (e : CacheEntry T) : Bool :=
  decide (now - e.timestamp > CACHE_EXPIRY)

/-- The `size` getter (`src/utils/cache.ts`): number of non-expired
entries. -/
def size {K T : Type} (c : MetricCache K T) (now : Nat) : Nat :=
  (c.cache.filter (fun p => !isEntryExpired now p.2)).length

/-- `get` (`src/utils/cache.ts` lines 76–87).  Returns the value and the
cache after the call (expired entries are deleted on access). -/
def get {K T : Type} [DecidableEq K] (c : MetricCache K T) (k : K)
    (now : Nat) : Option T × MetricCache K T :=
  match mapGet c.cache k with
  | none => (none, c)
  | some e =>
      if isEntryExpired now e then (none, ⟨mapDelete c.cache k⟩)
      else (some e.data, c)

/-- Body of `findOldestEntry`'s loop (`src/utils/cache.ts` lines
115–127): keep the first non-expired entry with strictly smallest
timestamp.  The accumulator `none` models the initial
`oldestTimestamp = Infinity` / `oldestKey = ''` state. -/
def oldestStep {K T : Type} (now : Nat) (acc : Option (K × Nat))
    (p : K × CacheEntry T) : Option (K × Nat) :=
  if !isEntryExpired now p.2 &&
      (match acc with
       | none => true
       | some (_, t) => decide (p.2.timestamp < t)) then
    some (p.1, p.2.timestamp)
  else acc

/-- `findOldestEntry` (`src/utils/cache.ts` lines 115–127).  The source
returns the empty string when every entry is expired; the embedding
returns `none` (keys are generic), which `evictIfNeeded` treats exactly
as the falsy empty string. -/
def findOldestEntry {K T : Type} (now : Nat) (c : MetricCache K T) :
    Option K :=
  (c.cache.foldl (oldestStep now) none).map (fun p => p.1)

/-- `evictIfNeeded` (`src/utils/cache.ts` lines 104–109): when the
backing map holds at least `MAX_CACHE_SIZE` entries (physical size,
expired entries included), delete the oldest non-expired entry if one
exists. -/
def evictIfNeeded {K T : Type} [DecidableEq K] (c : MetricCache K T)
    (now : Nat) : MetricCache K T :=
  if MAX_CACHE_SIZE ≤ c.cache.length then
    match findOldestEntry now c with
    | some k => ⟨mapDelete c.cache k⟩
    | none => c
  else c

/-- `set` (`src/utils/cache.ts` lines 62–68): evict if needed, then store
`{ data: value, timestamp: Date.now() }`. -/
def set {K T : Type} [DecidableEq K] (c : MetricCache K T) (k : K) (v : T)
    (now : Nat) : MetricCache K T :=
  ⟨mapSet (evictIfNeeded c now).cache k ⟨v, now⟩⟩

end MetricCache

/-- A sequence of `set` calls (key, value, `Date.now()` reading),
executed first-to-last on a fresh cache. -/
def runSets {K T : Type} [DecidableEq K] (ops : List (K × T × Nat)) :
    MetricCache K T :=
  ops.foldl (fun c op => MetricCache.set c op.1 op.2.1 op.2.2)
    MetricCache.empty

/-- Keys `0,…,n−1` inserted with value `0` at times `0,…,n−1` (all
within one TTL window, so nothing ever expires). -/
def entriesUpTo (n : Nat) : List (Nat × CacheEntry Nat) :=
  (List.range n).map (fun i => (i, ⟨0, i⟩))

/-- The `set`-call sequence producing `entriesUpTo n`. -/
def insertOps (n : Nat) : List (Nat × Nat × Nat) :=
  (List.range n).map (fun i => (i, 0, i))

/-- The 499 entries left after key `0` is evicted from
`entriesUpTo 500`. -/
def tail499 : List (Nat × CacheEntry Nat) :=
  (List.range 499).map (fun i => (i + 1, ⟨0, i + 1⟩))

/-- `calculateAverageComplexity` (`src/metrics/tracker.ts` lines
419–442) over exact rationals: mean, population variance
(`Math.pow(val - mean, 2)` summed and divided by the count), then the
values within two standard deviations of the mean are averaged, falling
back to the unfiltered mean when the filter empties the list.  The
source phrases the filter as `Math.abs(val - mean) <= stdDev * 2` with
`stdDev = Math.sqrt(variance)`; squaring both (nonnegative) sides gives
the equivalent rational test `(val - mean)^2 ≤ 4 * variance` used here
(`filter_test_eq_sqrt_test` proves the equivalence over ℝ). -/
def calculateAverageComplexity (complexities : List ℚ) : ℚ :=
  if complexities.length = 0 then 0
  else
    let mean := complexities.sum / (complexities.length : ℚ)
    let variance :=
      (complexities.map (fun v => (v - mean) ^ 2)).sum /
        (complexities.length : ℚ)
    let filteredComplexities :=
      complexities.filter (fun v => (v - mean) ^ 2 ≤ 4 * variance)
    if filteredComplexities.length ≠ 0 then
      filteredComplexities.sum / (filteredComplexities.length : ℚ)
    else mean

/-- `halsteadMetrics` component of `ComplexityMetrics`
(`src/metrics/complexity.ts`). JavaScript numbers are modelled as exact
rationals. -/
structure HalsteadMetrics where
  difficulty : ℚ
  volume : ℚ
  effort : ℚ
  deriving DecidableEq, Repr

/-- `ComplexityMetrics` (`src/metrics/complexity.ts`). -/
structure ComplexityMetrics where
  totalComplexity : ℚ
  cyclomaticComplexity : ℚ
  maintainabilityIndex : ℚ
  halsteadMetrics : HalsteadMetrics
  deriving DecidableEq, Repr

/-- ASCII part of the JavaScript regex character class `\s` (space,
tab, line feed, vertical tab, form feed, carriage return).  Source
lines cannot contain `\n` (they come from `split('\n')`), and the
remaining non-ASCII members of `\s` do not occur in the inputs
considered here. -/
def isWsChar (c : Char) : Bool :=
  c = ' ' || c = '\t' || c = '\n' || c = '\x0b' || c = '\x0c' || c = '\r'

/-- JavaScript regex word character `\w`, i.e. `[A-Za-z0-9_]`. -/
def isWordChar (c : Char) : Bool :=
  ('a' ≤ c && c ≤ 'z') || ('A' ≤ c && c ≤ 'Z') ||
    ('0' ≤ c && c ≤ '9') || c = '_'

/-- JavaScript `String.prototype.trim` (strips `\s` from both ends). -/
def trimWs (l : List Char) : List Char :=
  ((l.dropWhile isWsChar).reverse.dropWhile isWsChar).reverse

/-- JavaScript `String.prototype.split('\n')`.  Never returns `[]`:
the empty string splits to `[""]` and a trailing newline produces a
trailing empty line. -/
def splitLines : List Char → List (List Char)
  | [] => [[]]
  | c :: rest =>
      if c = '\n' then [] :: splitLines rest
      else
        match splitLines rest with
        | l :: ls => (c :: l) :: ls
        | [] => [[c]]

/-- `CodeComplexityAnalyzer.quickAnalyze` (`src/metrics/complexity.ts`
lines 52–77): line-count heuristic, complexity clamped to `[1, 20]`.
The `_language` parameter is unused by the source as well. -/
def quickAnalyze (sourceCode : List Char) (_language : String) :
    ComplexityMetrics :=
  let lines := splitLines sourceCode
  let lineCount := lines.length
  let cyclomaticComplexity : Nat := min 20 (max 1 (lineCount / 50))
  { totalComplexity := cyclomaticComplexity
    cyclomaticComplexity := cyclomaticComplexity
    maintainabilityIndex := max (0 : ℚ) ((100 : ℚ) - (cyclomaticComplexity : ℚ))
    halsteadMetrics :=
      { difficulty := (cyclomaticComplexity : ℚ) / 5
        volume := lineCount
        effort := (cyclomaticComplexity : ℚ) * lineCount } }

/-- Binary-operator token kinds distinguished by the traversal in
`analyzeTypeScriptComplexity`: the three short-circuit operators
increment cyclomatic complexity; everything else is `otherToken`. -/
inductive TokenKind where
  | ampersandAmpersandToken
  | barBarToken
  | questionQuestionToken
  | otherToken
  deriving DecidableEq, Repr

/-- A binary expression's `operatorToken`: its kind plus its source
text (`getText()`), the latter feeding the Halstead operator set. -/
structure OperatorToken where
  kind : TokenKind
  text : String
  deriving DecidableEq, Repr

/-- The `ts.SyntaxKind`s the traversal switch distinguishes; every
other TypeScript node kind takes the switch's implicit default and is
modelled as `other`. -/
inductive SyntaxKind where
  | ifStatement
  | switchStatement
  | caseClause
  | forStatement
  | forInStatement
  | forOfStatement
  | whileStatement
  | doStatement
  | catchClause
  | conditionalExpression
  | binaryExpression (operatorToken : OperatorToken)
  | identifier (text : String)
  | stringLiteral
  | numericLiteral
  | trueKeyword
  | falseKeyword
  | other
  deriving DecidableEq, Repr

mutual
/-- A TypeScript AST node: its kind and its children in `forEachChild`
order.  Produced by the (external) `ts.createSourceFile` parser. -/
inductive TsNode where
  | node (kind : SyntaxKind) (children : TsNodeList)
  deriving DecidableEq, Repr
/-- A list of sibling AST nodes. -/
inductive TsNodeList where
  | nil
  | cons (hd : TsNode) (tl : TsNodeList)
  deriving DecidableEq, Repr
end

/-- `Set.prototype.add` on an insertion-ordered set of strings. -/
def setAdd (s : List String) (x : String) : List String :=
  if x ∈ s then s else s ++ [x]

/-- The mutable counters of the `traverse` closure in
`analyzeTypeScriptComplexity` (`src/metrics/complexity.ts` lines
133–138). -/
structure TraverseState where
  cyclomaticComplexity : Nat
  halsteadOperators : List String
  halsteadOperands : List String
  operatorCount : Nat
  operandCount : Nat
  deriving DecidableEq, Repr

/-- The `switch (node.kind)` body of `traverse`
(`src/metrics/complexity.ts` lines 144–197), acting on one node. -/
def visitNode (s : TraverseState) (k : SyntaxKind) : TraverseState :=
  match k with
  | .ifStatement | .switchStatement | .caseClause | .forStatement
  | .forInStatement | .forOfStatement | .whileStatement | .doStatement
  | .catchClause | .conditionalExpression =>
      { s with cyclomaticComplexity := s.cyclomaticComplexity + 1 }
  | .binaryExpression op =>
      let s1 :=
        if op.kind = .ampersandAmpersandToken ∨ op.kind = .barBarToken ∨
            op.kind = .questionQuestionToken then
          { s with cyclomaticComplexity := s.cyclomaticComplexity + 1 }
        else s
      { s1 with
        halsteadOperators := setAdd s1.halsteadOperators op.text
        operatorCount := s1.operatorCount + 1 }
  | .identifier text =>
      { s with
        halsteadOperands := setAdd s.halsteadOperands text
        operandCount := s.operandCount + 1 }
  | .stringLiteral | .numericLiteral | .trueKeyword | .falseKeyword =>
      { s with operandCount := s.operandCount + 1 }
  | .other => s

mutual
/-- `traverse` (`src/metrics/complexity.ts` lines 144–197): visit the
node, then recurse over its children via `ts.forEachChild`. -/
def traverse (s : TraverseState) : TsNode → TraverseState
  | .node k children => traverseList (visitNode s k) children
/-- Folding `traverse` over sibling nodes in order. -/
def traverseList (s : TraverseState) : TsNodeList → TraverseState
  | .nil => s
  | .cons c rest => traverseList (traverse s c) rest
end

/-- Number of cyclomatic-complexity increments `traverse` performs on
a node of the given kind. -/
def kindIncrement : SyntaxKind → Nat
  | .ifStatement | .switchStatement | .caseClause | .forStatement
  | .forInStatement | .forOfStatement | .whileStatement | .doStatement
  | .catchClause | .conditionalExpression => 1
  | .binaryExpression op =>
      if op.kind = .ampersandAmpersandToken ∨ op.kind = .barBarToken ∨
          op.kind = .questionQuestionToken then 1 else 0
  | _ => 0

/-- Is the node an `if` statement? -/
def isIfKind : SyntaxKind → Bool
  | .ifStatement => true
  | _ => false

/-- Is the node a binary expression whose operator is `&&`? -/
def isAmpAmpKind : SyntaxKind → Bool
  | .binaryExpression op => op.kind = .ampersandAmpersandToken
  | _ => false

/-- Is the node a complexity-incrementing construct other than an `if`
statement or an `&&` expression (loops, switch/case, catch, ternary,
`||`, `??`)? -/
def isOtherCcKind (k : SyntaxKind) : Bool :=
  kindIncrement k ≠ 0 && !isIfKind k && !isAmpAmpKind k

mutual
/-- Number of nodes of a tree satisfying a kind predicate. -/
def countNodes (pred : SyntaxKind → Bool) : TsNode → Nat
  | .node k children =>
      (if pred k then 1 else 0) + countNodesList pred children
/-- Number of nodes across sibling trees satisfying a kind predicate. -/
def countNodesList (pred : SyntaxKind → Bool) : TsNodeList → Nat
  | .nil => 0
  | .cons c rest => countNodes pred c + countNodesList pred rest
end

mutual
/-- Total number of cyclomatic-complexity increments over a tree. -/
def ccCount : TsNode → Nat
  | .node k children => kindIncrement k + ccCountList children
/-- Total number of cyclomatic-complexity increments over siblings. -/
def ccCountList : TsNodeList → Nat
  | .nil => 0
  | .cons c rest => ccCount c + ccCountList rest
end

/-- `analyzeTypeScriptComplexity` (`src/metrics/complexity.ts` lines
122–237), starting from the already-parsed syntax tree (the
`ts.createSourceFile` call is the external parser; `analyzeComplexity`
below routes a parse failure to the fallback analyzer, like the
source's `catch`).  `Math.log` and `Math.log2` are modelled by the
parameters `ln` and `log2`: the floating-point library returns some
number for each argument, and every property proved here holds for
every choice. -/
def analyzeTypeScriptComplexity (ln log2 : ℚ → ℚ)
    (sourceCode : List Char) (sourceFile : TsNode) : ComplexityMetrics :=
  let st := traverse ⟨1, [], [], 0, 0⟩ sourceFile
  let cyclomaticComplexity := min st.cyclomaticComplexity 100
  let n1 : Nat :=
    if st.halsteadOperators.length = 0 then 1
    else st.halsteadOperators.length
  let n2 : Nat :=
    if st.halsteadOperands.length = 0 then 1
    else st.halsteadOperands.length
  let bigN1 : Nat := if st.operatorCount = 0 then 1 else st.operatorCount
  let bigN2 : Nat := if st.operandCount = 0 then 1 else st.operandCount
  let halsteadVolume : ℚ := ((bigN1 + bigN2 : Nat) : ℚ) * log2 ((n1 + n2 : Nat) : ℚ)
  let halsteadDifficulty : ℚ := ((n1 : ℚ) / 2) * ((bigN2 : ℚ) / (n2 : ℚ))
  let halsteadEffort := halsteadDifficulty * halsteadVolume
  let maintainabilityIndex : ℚ :=
    max 0 (min 100
      (171 - 5.2 * ln halsteadVolume
        - 0.23 * (cyclomaticComplexity : ℚ)
        - 16.2 * ln ((splitLines sourceCode).length : ℚ)))
  { totalComplexity := cyclomaticComplexity
    cyclomaticComplexity := cyclomaticComplexity
    maintainabilityIndex := maintainabilityIndex
    halsteadMetrics :=
      { difficulty := halsteadDifficulty
        volume := halsteadVolume
        effort := halsteadEffort } }

/-- A token of one of the keyword-search patterns: a literal character
or one `\s` class character. -/
inductive RTok where
  | ch (c : Char)
  | ws
  deriving DecidableEq, Repr

/-- Does a regex token match a character? -/
def tokMatch : RTok → Char → Bool
  | .ch c, d => c = d
  | .ws, d => isWsChar d

/-- Does the token pattern match a prefix of the text? -/
def patAt : List RTok → List Char → Bool
  | [], _ => true
  | _ :: _, [] => false
  | t :: ts, c :: cs => tokMatch t c && patAt ts cs

/-- Leftmost unanchored search for a token pattern; returns the text
right after the end of the first match (regex `.test`-style existence,
plus the remainder for matching subsequent pattern pieces). -/
def findPat (pat : List RTok) : List Char → Option (List Char)
  | [] => if patAt pat [] then some [] else none
  | c :: rest =>
      if patAt pat (c :: rest) then some (List.drop pat.length (c :: rest))
      else findPat pat rest

/-- The characters of a string literal, as pattern tokens. -/
def litPat (s : List Char) : List RTok := s.map RTok.ch

/-- `/\s*def\s+/.test(line)`: since `\s*` may be empty and the search
is unanchored, the test holds exactly when some occurrence of the
literal is immediately followed by a `\s` character. -/
def testKwWs (kw : List Char) (line : List Char) : Bool :=
  (findPat (litPat kw ++ [RTok.ws]) line).isSome

/-- `/\s*(if|elif|for|while|except)\s+/.test(line)` — some alternative
followed by whitespace occurs. -/
def testPyControl (line : List Char) : Bool :=
  testKwWs ['i','f'] line || testKwWs ['e','l','i','f'] line ||
    testKwWs ['f','o','r'] line || testKwWs ['w','h','i','l','e'] line ||
    testKwWs ['e','x','c','e','p','t'] line

/-- `/\s*return\s+.*\s+if\s+.*\s+else\s+/.test(line)`: existential
matching of the concatenation — `return` followed by a `\s`, then
(later) `\s if \s`, then (later) `\s else \s`; leftmost sequential
search is complete for such patterns. -/
def testPyTernary (line : List Char) : Bool :=
  match findPat (litPat ['r','e','t','u','r','n'] ++ [RTok.ws]) line with
  | none => false
  | some r1 =>
      match findPat ([RTok.ws] ++ litPat ['i','f'] ++ [RTok.ws]) r1 with
      | none => false
      | some r2 =>
          (findPat ([RTok.ws] ++ litPat ['e','l','s','e'] ++ [RTok.ws])
            r2).isSome

/-- One pass of the global match count for
`/(\s+and\s+)|(\s+or\s+)/g` (`src/metrics/complexity.ts` line 266).
The engine scans left to right; a match starting anywhere inside a
whitespace run is decided at the run's end, where `and`/`or` plus at
least one whitespace character must follow; the greedy trailing `\s+`
then consumes the entire following whitespace run, so the next match
cannot reuse it.  The fuel argument (seeded with the line length) only
bounds the recursion — every step consumes at least one character. -/
def countPyLogicalOps : Nat → List Char → Nat
  | 0, _ => 0
  | _ + 1, [] => 0
  | fuel + 1, c :: rest =>
      if isWsChar c then
        let r := (c :: rest).dropWhile isWsChar
        if patAt (litPat ['a','n','d'] ++ [RTok.ws]) r then
          1 + countPyLogicalOps fuel ((r.drop 3).dropWhile isWsChar)
        else if patAt (litPat ['o','r'] ++ [RTok.ws]) r then
          1 + countPyLogicalOps fuel ((r.drop 2).dropWhile isWsChar)
        else countPyLogicalOps fuel r
      else countPyLogicalOps fuel rest

/-- The per-line work of the `for` loop in `analyzePythonComplexity`
(`src/metrics/complexity.ts` lines 252–268): how many complexity
increments one line contributes.  Comment lines (`#`) and blank lines
contribute nothing; otherwise each of the three `.test` regexes adds
at most one, and the `and`/`or` matches add one each. -/
def pythonLineIncrement (line : List Char) : Nat :=
  let trimmedLine := trimWs line
  if trimmedLine.head? == some '#' || trimmedLine.isEmpty then 0
  else
    (if testKwWs ['d','e','f'] trimmedLine then 1 else 0) +
    (if testPyControl trimmedLine then 1 else 0) +
    (if testPyTernary trimmedLine then 1 else 0) +
    countPyLogicalOps (trimmedLine.length + 1) trimmedLine

/-- `analyzePythonComplexity` (`src/metrics/complexity.ts` lines
248–289).  `Math.log2` is the parameter `log2`. -/
def analyzePythonComplexity (log2 : ℚ → ℚ) (sourceCode : List Char) :
    ComplexityMetrics :=
  let lines := splitLines sourceCode
  let cyclomaticComplexity :=
    lines.foldl (fun acc line => acc + pythonLineIncrement line) 1
  let halsteadVolume : ℚ :=
    (lines.length : ℚ) * log2 ((cyclomaticComplexity : ℚ) + 1)
  let halsteadDifficulty : ℚ := (cyclomaticComplexity : ℚ) / 2
  let maintainabilityIndex : ℚ :=
    max 0 (min 100
      (100 - (cyclomaticComplexity : ℚ) * 0.2 - 0.1 * (lines.length : ℚ)))
  { totalComplexity := cyclomaticComplexity
    cyclomaticComplexity := cyclomaticComplexity
    maintainabilityIndex := maintainabilityIndex
    halsteadMetrics :=
      { difficulty := halsteadDifficulty
        volume := halsteadVolume
        effort := halsteadDifficulty * halsteadVolume } }

/-- Keyword prefix check with a trailing word boundary: the keyword is
a prefix of the text and the next character (if any) is not a `\w`
character.  The leading boundary is the caller's `prev` check. -/
def kwPrefixWB : List Char → List Char → Bool
  | [], [] => true
  | [], c :: _ => !isWordChar c
  | _ :: _, [] => false
  | k :: ks, c :: cs => k = c && kwPrefixWB ks cs

/-- `\bkw\b` holds at the current position, where `prev` is the
character before the position (`none` at the start of the text). -/
def atWB (kw : List Char) (prev : Option Char) (l : List Char) : Bool :=
  (match prev with
   | none => true
   | some p => !isWordChar p) && kwPrefixWB kw l

/-- The alternatives of
`/\b(if|else|switch|case|for|while|do|try|catch|except)\b/`. -/
def fallbackKeywords : List (List Char) :=
  [['i','f'], ['e','l','s','e'], ['s','w','i','t','c','h'],
   ['c','a','s','e'], ['f','o','r'], ['w','h','i','l','e'],
   ['d','o'], ['t','r','y'], ['c','a','t','c','h'],
   ['e','x','c','e','p','t']]

/-- `.test` of the fallback control-flow regex: some keyword occurs
with word boundaries on both sides. -/
def testFallbackKw : Option Char → List Char → Bool
  | _, [] => false
  | prev, c :: rest =>
      fallbackKeywords.any (fun kw => atWB kw prev (c :: rest)) ||
        testFallbackKw (some c) rest

/-- Global match count for `/(\&\&)|(\|\|)|(\band\b)|(\bor\b)/g`
(`src/metrics/complexity.ts` line 317): leftmost non-overlapping
matches, alternatives tried in source order, scanning resuming after
each match.  Fuel (seeded with the line length) only bounds the
recursion. -/
def countFallbackOps : Nat → Option Char → List Char → Nat
  | 0, _, _ => 0
  | _ + 1, _, [] => 0
  | fuel + 1, prev, c :: rest =>
      if patAt (litPat ['&','&']) (c :: rest) then
        1 + countFallbackOps fuel (some '&') ((c :: rest).drop 2)
      else if patAt (litPat ['|','|']) (c :: rest) then
        1 + countFallbackOps fuel (some '|') ((c :: rest).drop 2)
      else if atWB ['a','n','d'] prev (c :: rest) then
        1 + countFallbackOps fuel (some 'd') ((c :: rest).drop 3)
      else if atWB ['o','r'] prev (c :: rest) then
        1 + countFallbackOps fuel (some 'r') ((c :: rest).drop 2)
      else countFallbackOps fuel (some c) rest

/-- The per-line work of the loop in `fallbackComplexityAnalysis`
(`src/metrics/complexity.ts` lines 307–319). -/
def fallbackLineIncrement (line : List Char) : Nat :=
  let t := trimWs line
  if patAt (litPat ['/','/']) t || t.head? == some '#' || t.isEmpty then 0
  else
    (if testFallbackKw none t then 1 else 0) +
      countFallbackOps (t.length + 1) none t

/-- `fallbackComplexityAnalysis` (`src/metrics/complexity.ts` lines
302–337): keyword heuristic capped at 50. -/
def fallbackComplexityAnalysis (sourceCode : List Char) :
    ComplexityMetrics :=
  let lines := splitLines sourceCode
  let lineCount := lines.length
  let ccRaw :=
    lines.foldl (fun acc line => acc + fallbackLineIncrement line) 1
  let cyclomaticComplexity := min ccRaw 50
  let maintainabilityIndex : ℚ :=
    max 0 (100 - (cyclomaticComplexity : ℚ) * 0.25 - 0.05 * (lineCount : ℚ))
  { totalComplexity := cyclomaticComplexity
    cyclomaticComplexity := cyclomaticComplexity
    maintainabilityIndex := maintainabilityIndex
    halsteadMetrics :=
      { difficulty := (cyclomaticComplexity : ℚ) / 10
        volume := lineCount
        effort := (cyclomaticComplexity : ℚ) * lineCount } }

/-- `CodeComplexityAnalyzer.analyzeComplexity`
(`src/metrics/complexity.ts` lines 89–109): dispatch on the lowercased
language tag.  `parse` is the external `ts.createSourceFile` parser;
`none` models a parse/traversal failure, routed to the fallback
analyzer exactly as the source's `catch` blocks do. -/
def analyzeComplexity (ln log2 : ℚ → ℚ)
    (parse : List Char → Option TsNode) (sourceCode : List Char)
    (language : String) : ComplexityMetrics :=
  let lang := language.toLower
  if lang = "typescript" ∨ lang = "ts" ∨ lang = "javascript" ∨
      lang = "js" ∨ lang = "jsx" ∨ lang = "tsx" then
    match parse sourceCode with
    | some sourceFile => analyzeTypeScriptComplexity ln log2 sourceCode sourceFile
    | none => fallbackComplexityAnalysis sourceCode
  else if lang = "python" ∨ lang = "py" then
    analyzePythonComplexity log2 sourceCode
  else fallbackComplexityAnalysis sourceCode

/-- `getComplexityRecommendations` (`src/metrics/complexity.ts` lines
350–374): threshold-based suggestions, pushed in source order, with a
single positive message when nothing triggers. -/
def getComplexityRecommendations (metrics : ComplexityMetrics) :
    List String :=
  let cyclomaticRecs : List String :=
    if metrics.cyclomaticComplexity > 15 then
      ["High cyclomatic complexity. Refactor into smaller functions."]
    else if metrics.cyclomaticComplexity > 10 then
      ["Moderate complexity. Simplify nested conditions."]
    else []
  let maintainabilityRecs : List String :=
    if metrics.maintainabilityIndex < 40 then
      ["Low maintainability. Break into smaller modules."]
    else if metrics.maintainabilityIndex < 60 then
      ["Moderate maintainability. Improve documentation."]
    else []
  let cognitiveRecs : List String :=
    if metrics.halsteadMetrics.difficulty > 30 then
      ["High cognitive complexity. Simplify logic."]
    else []
  let recommendations := cyclomaticRecs ++ maintainabilityRecs ++ cognitiveRecs
  if recommendations.length ≠ 0 then recommendations
  else ["Code quality metrics are within recommended ranges."]

/-- Modelled from the spec: "increment complexity by 1 for each
recognized control-flow keyword occurrence (if/elif/for/while/except)"
— the number of positions where one of the recognized keywords occurs
(followed by whitespace, matching the code's keyword recognition), so
every occurrence counts, not at most one per line. -/
def specPyControlOccurrences : List Char → Nat
  | [] => 0
  | c :: rest =>
      (if [['i','f'], ['e','l','i','f'], ['f','o','r'],
          ['w','h','i','l','e'], ['e','x','c','e','p','t']].any
          (fun kw => patAt (litPat kw ++ [RTok.ws]) (c :: rest)) then 1
        else 0) + specPyControlOccurrences rest

/-- The single Python line `while a if b else c`: two control-flow
keyword occurrences (`while`, `if`) on one line. -/
def pyTwoKeywordLine : List Char :=
  ['w','h','i','l','e',' ','a',' ','i','f',' ','b',' ',
   'e','l','s','e',' ','c']

/-- `FileMetadata` (`src/metrics/tracker.ts` lines 25–31).  File paths
are generic in `K`; `lastModified` (`new Date()`) is a timestamp. -/
structure FileMetadata (K : Type) where
  path : K
  language : String
  lines : Nat
  complexity : ComplexityMetrics
  lastModified : Nat
  deriving DecidableEq, Repr

/-- `SessionData` (`src/metrics/tracker.ts` lines 34–40).  `endTime`
is declared optional in the source and never assigned. -/
structure SessionData (K : Type) where
  startTime : Nat
  endTime : Option Nat
  idleTime : Nat
  activeTime : Nat
  fileChanges : List K
  deriving DecidableEq, Repr

/-- The `MetricsTracker` state the claims touch
(`src/metrics/tracker.ts`): the file cache, the session log and the
idle clock. -/
structure MetricsTracker (K : Type) where
  trackedFiles : MetricCache K (FileMetadata K)
  sessionsLog : List (SessionData K)
  lastActivityTime : Nat
  deriving Repr

/-- `idleThreshold = 5 * 60 * 1000` ms (`src/metrics/tracker.ts` line
56). -/
def idleThreshold : Nat := 5 * 60 * 1000

/-- Mutating `array[array.length - 1]` in place: apply `f` to the last
element.  (The source indexes `sessionsLog[sessionsLog.length - 1]`;
the log is never empty because the constructor calls
`startSession()`.) -/
def updateLast {α : Type} (f : α → α) : List α → List α
  | [] => []
  | [a] => [f a]
  | a :: rest => a :: updateLast f rest

/-- `checkIdleTime` (`src/metrics/tracker.ts` lines 250–259): if the
gap since the last activity exceeds the idle threshold, add the entire
gap to the current session's idle time and reset the activity clock. -/
def checkIdleTime {K : Type} (s : MetricsTracker K) (now : Nat) :
    MetricsTracker K :=
  let idleDuration := now - s.lastActivityTime
  if idleDuration > idleThreshold then
    { s with
      sessionsLog := updateLast
        (fun cur => { cur with idleTime := cur.idleTime + idleDuration })
        s.sessionsLog
      lastActivityTime := now }
  else s

/-- A text document as `analyzeDocument` consumes it: identity,
extension-derived language tag (the pure path-string computation
`path.extname(fileName).slice(1).toLowerCase()` is modelled as a
field), content, and host-reported line count. -/
structure TextDocument (K : Type) where
  fileName : K
  fileExtension : String
  content : List Char
  lineCount : Nat

/-- `analyzeDocument` (`src/metrics/tracker.ts` lines 266–306): a
light (non-save) analysis returns immediately when the cache holds a
live entry for the file; otherwise the content is analyzed (full
analysis when saved or below 50 000 characters, quick heuristic
otherwise) and the metadata cached.  The `get` call's expiry deletion
is part of the state transition; the insight logging is
presentation-only and stateless. -/
def analyzeDocument {K : Type} [DecidableEq K] (ln log2 : ℚ → ℚ)
    (parse : List Char → Option TsNode) (s : MetricsTracker K)
    (document : TextDocument K) (isSaved : Bool) (now : Nat) :
    MetricsTracker K :=
  let filePath := document.fileName
  let lookup := MetricCache.get s.trackedFiles filePath now
  if !isSaved && lookup.1.isSome then
    { s with trackedFiles := lookup.2 }
  else
    let content := document.content
    let complexity :=
      if isSaved || content.length < 50000 then
        analyzeComplexity ln log2 parse content document.fileExtension
      else quickAnalyze content document.fileExtension
    let fileMetadata : FileMetadata K :=
      { path := filePath
        language := document.fileExtension
        lines := document.lineCount
        complexity := complexity
        lastModified := now }
    { s with
      trackedFiles := MetricCache.set lookup.2 filePath fileMetadata now }

/-- Sample metadata for exercising the light-analysis no-op on a
concrete state. -/
def sampleMetadata : FileMetadata Nat :=
  ⟨5, "ts", 3, ⟨1, 1, 50, ⟨1, 1, 1⟩⟩, 10⟩

/-- A live cache entry holding `sampleMetadata`, written at `t = 10`. -/
def sampleEntry : CacheEntry (FileMetadata Nat) := ⟨sampleMetadata, 10⟩

/-- A tracker whose cache holds exactly `sampleEntry` under key `5`. -/
def sampleTracker : MetricsTracker Nat :=
  ⟨⟨[(5, sampleEntry)]⟩, [⟨0, none, 0, 0, []⟩], 0⟩

/-- A document with the cached identity `5`. -/
def sampleDocument : TextDocument Nat := ⟨5, "ts", [], 1⟩

/-- `debounceTime = 300` ms (`src/metrics/debounce-tracker.ts` line
15). -/
def debounceTime : Nat := 300

/-- One `queueFileTracking` call: the file, the callback passed in
(opaque payload of type `C`), and the wall-clock time of the call. -/
structure SchedEvent (K C : Type) where
  file : K
  cb : C
  time : Nat

/-- The observable state of a `DebouncedFileTracker` run: per file at
most one pending timer (fire deadline and the callback of the latest
schedule), plus the trace of executed callbacks in firing order. -/
structure DebounceState (K C : Type) where
  pending : List (K × Nat × C)
  executed : List (K × C)

/-- Insert a timer into a deadline-sorted list, after any timer with
the same deadline (`setTimeout` fires equal deadlines in creation
order). -/
def insertByFire {K C : Type} (p : K × Nat × C) :
    List (K × Nat × C) → List (K × Nat × C)
  | [] => [p]
  | q :: rest =>
      if p.2.1 < q.2.1 then p :: q :: rest else q :: insertByFire p rest

/-- Stable sort of timers by fire deadline. -/
def sortByFire {K C : Type} (l : List (K × Nat × C)) :
    List (K × Nat × C) :=
  l.foldr insertByFire []

/-- Run the timers whose deadline has passed: they execute in deadline
order and leave the pending set. -/
def fireDue {K C : Type} (now : Nat) (s : DebounceState K C) :
    DebounceState K C :=
  let due := s.pending.filter (fun p => decide (p.2.1 ≤ now))
  let rest := s.pending.filter (fun p => !decide (p.2.1 ≤ now))
  { pending := rest
    executed := s.executed ++ (sortByFire due).map (fun p => (p.1, p.2.2)) }

/-- Let every remaining timer reach its deadline and fire. -/
def fireAll {K C : Type} (s : DebounceState K C) : DebounceState K C :=
  { pending := []
    executed :=
      s.executed ++ (sortByFire s.pending).map (fun p => (p.1, p.2.2)) }

/-- A `DebouncedFileTracker` run over a time-ordered list of
`queueFileTracking` calls (`src/metrics/debounce-tracker.ts` lines
22–35): before each call the timers already due have fired; the call
itself cancels any pending timer for its file and schedules a fresh
one `debounceTime` ms out (latest callback wins). -/
def runDebounce {K C : Type} [DecidableEq K]
    (events : List (SchedEvent K C)) : DebounceState K C :=
  events.foldl
    (fun s e =>
      let s1 := fireDue e.time s
      { s1 with
        pending := mapSet s1.pending e.file (e.time + debounceTime, e.cb) })
    ⟨[], []⟩

section MapLemmas

variable {K V : Type} [DecidableEq K]

lemma mapSet_of_not_mem (l : List (K × V)) (k : K) (v : V)
    (h : k ∉ l.map Prod.fst) : mapSet l k v = l ++ [(k, v)] := by
  induction l with
  | nil => rfl
  | cons p rest ih =>
      obtain ⟨k₀, v₀⟩ := p
      simp only [List.map_cons, List.mem_cons] at h
      push_neg at h
      simp [mapSet, h.1.symm, ih h.2]

lemma mem_mapSet (l : List (K × V)) (k : K) (v : V) (p : K × V)
    (h : p ∈ mapSet l k v) : p ∈ l ∨ p = (k, v) := by
  induction l with
  | nil => simp [mapSet] at h; simp [h]
  | cons q rest ih =>
      obtain ⟨k₀, v₀⟩ := q
      by_cases hk : k₀ = k
      · simp [mapSet, hk] at h
        rcases h with h | h
        · right; simp [h]
        · left; simp [h]
      · simp [mapSet, hk] at h
        rcases h with h | h
        · left; simp [h]
        · rcases ih h with h' | h'
          · left; simp [h']
          · right; exact h'

lemma length_mapSet_le (l : List (K × V)) (k : K) (v : V) :
    (mapSet l k v).length ≤ l.length + 1 := by
  induction l with
  | nil => simp [mapSet]
  | cons q rest ih =>
      obtain ⟨k₀, v₀⟩ := q
      by_cases hk : k₀ = k
      · simp [mapSet, hk]
      · simp only [mapSet, if_neg hk, List.length_cons]
        omega

lemma length_mapSet_of_mem (l : List (K × V)) (k : K) (v : V)
    (h : k ∈ l.map Prod.fst) : (mapSet l k v).length = l.length := by
  induction l with
  | nil => simp at h
  | cons q rest ih =>
      obtain ⟨k₀, v₀⟩ := q
      by_cases hk : k₀ = k
      · simp [mapSet, hk]
      · simp only [List.map_cons, List.mem_cons] at h
        rcases h with h | h
        · exact absurd h.symm hk
        · simp [mapSet, hk, ih h]

lemma mem_mapDelete (l : List (K × V)) (k : K) (p : K × V)
    (h : p ∈ mapDelete l k) : p ∈ l := by
  induction l with
  | nil => simp [mapDelete] at h
  | cons q rest ih =>
      obtain ⟨k₀, v₀⟩ := q
      by_cases hk : k₀ = k
      · simp [mapDelete, hk] at h
        simp [h]
      · simp [mapDelete, hk] at h
        rcases h with h | h
        · simp [h]
        · simp [ih h]

lemma length_mapDelete_of_mem (l : List (K × V)) (k : K)
    (h : k ∈ l.map Prod.fst) : (mapDelete l k).length + 1 = l.length := by
  induction l with
  | nil => simp at h
  | cons q rest ih =>
      obtain ⟨k₀, v₀⟩ := q
      by_cases hk : k₀ = k
      · simp [mapDelete, hk]
      · simp only [List.map_cons, List.mem_cons] at h
        rcases h with h | h
        · exact absurd h.symm hk
        · simp [mapDelete, hk, ih h]

lemma mapGet_isSome_iff (l : List (K × V)) (k : K) :
    (mapGet l k).isSome = true ↔ k ∈ l.map Prod.fst := by
  induction l with
  | nil => simp [mapGet]
  | cons q rest ih =>
      obtain ⟨k₀, v₀⟩ := q
      by_cases hk : k₀ = k
      · subst hk; simp [mapGet]
      · simp [mapGet, hk, ih, eq_comm]
        exact fun h => absurd h.symm hk

lemma mapGet_eq_none_of_not_mem (l : List (K × V)) (k : K)
    (h : k ∉ l.map Prod.fst) : mapGet l k = none := by
  cases hg : mapGet l k with
  | none => rfl
  | some v =>
      exact absurd ((mapGet_isSome_iff l k).mp (by simp [hg])) h

lemma mapGet_mapSet_ne (l : List (K × V)) (k k' : K) (v : V)
    (h : k' ≠ k) : mapGet (mapSet l k v) k' = mapGet l k' := by
  induction l with
  | nil => simp [mapSet, mapGet, Ne.symm h]
  | cons q rest ih =>
      obtain ⟨k₀, v₀⟩ := q
      by_cases hk : k₀ = k
      · subst hk
        simp [mapSet, mapGet, Ne.symm h]
      · by_cases hk' : k₀ = k' <;> simp [mapSet, mapGet, hk, hk', h, ih]

end MapLemmas

section OldestEntryLemmas

open MetricCache

variable {K T : Type}

lemma oldestStep_eq_none {now : Nat} {acc : Option (K × Nat)}
    {p : K × CacheEntry T} (h : oldestStep now acc p = none) :
    acc = none ∧ isEntryExpired now p.2 = true := by
  unfold oldestStep at h
  split at h
  · exact absurd h (by simp)
  · next hcond =>
      refine ⟨h, ?_⟩
      rw [h] at hcond
      simpa using hcond

lemma foldl_oldestStep_eq_none (now : Nat) :
    ∀ (l : List (K × CacheEntry T)) (acc : Option (K × Nat)),
      l.foldl (oldestStep now) acc = none →
      acc = none ∧ ∀ q ∈ l, isEntryExpired now q.2 = true := by
  intro l
  induction l with
  | nil => intro acc h; simpa using h
  | cons p rest ih =>
      intro acc h
      rw [List.foldl_cons] at h
      obtain ⟨hacc, hrest⟩ := ih (oldestStep now acc p) h
      obtain ⟨hacc', hexp⟩ := oldestStep_eq_none hacc
      refine ⟨hacc', fun q hq => ?_⟩
      rcases List.mem_cons.mp hq with h' | h'
      · rw [h']; exact hexp
      · exact hrest q h'

lemma oldestStep_cases (now : Nat) (acc : Option (K × Nat))
    (p : K × CacheEntry T) :
    (oldestStep now acc p = some (p.1, p.2.timestamp) ∧
      isEntryExpired now p.2 = false ∧
      ∀ k₀ t₀, acc = some (k₀, t₀) → p.2.timestamp < t₀) ∨
    (oldestStep now acc p = acc ∧
      (isEntryExpired now p.2 = true ∨
        ∃ k₀ t₀, acc = some (k₀, t₀) ∧ t₀ ≤ p.2.timestamp)) := by
  unfold oldestStep
  by_cases hexp : isEntryExpired now p.2
  · right
    simp [hexp]
  · cases acc with
    | none =>
        left
        simp [hexp]
    | some kt =>
        obtain ⟨k₀, t₀⟩ := kt
        by_cases hlt : p.2.timestamp < t₀
        · left
          refine ⟨by simp [hexp, hlt], by simpa using hexp, ?_⟩
          intro k₁ t₁ hkt
          cases hkt
          exact hlt
        · right
          refine ⟨by simp [hexp, hlt], Or.inr ⟨k₀, t₀, rfl, ?_⟩⟩
          omega

lemma foldl_oldestStep_min (now : Nat) :
    ∀ (l : List (K × CacheEntry T)) (acc : Option (K × Nat)) (o : K) (t : Nat),
      l.foldl (oldestStep now) acc = some (o, t) →
      (acc = some (o, t) ∨
        ∃ e, (o, e) ∈ l ∧ e.timestamp = t ∧ isEntryExpired now e = false) ∧
      (∀ q ∈ l, isEntryExpired now q.2 = false → t ≤ q.2.timestamp) ∧
      (∀ k₀ t₀, acc = some (k₀, t₀) → t ≤ t₀) := by
  intro l
  induction l with
  | nil =>
      intro acc o t h
      simp only [List.foldl_nil] at h
      refine ⟨Or.inl h, fun q hq => absurd hq (List.not_mem_nil q),
        fun k₀ t₀ hk => ?_⟩
      rw [h] at hk
      cases hk
      exact le_refl t
  | cons p rest ih =>
      intro acc o t h
      rw [List.foldl_cons] at h
      obtain ⟨horig, hmin, hbound⟩ := ih (oldestStep now acc p) o t h
      rcases oldestStep_cases now acc p with
        ⟨hstep, hpexp, hpbound⟩ | ⟨hstep, hkeep⟩
      · -- the step replaced the accumulator with p
        refine ⟨?_, ?_, ?_⟩
        · rcases horig with h' | ⟨e, hmem, het, he⟩
          · rw [hstep] at h'
            cases h'
            exact Or.inr ⟨p.2, by simp, rfl, hpexp⟩
          · exact Or.inr ⟨e, List.mem_cons_of_mem _ hmem, het, he⟩
        · intro q hq hqe
          rcases List.mem_cons.mp hq with h' | h'
          · have := hbound p.1 p.2.timestamp hstep
            rw [h']
            exact this
          · exact hmin q h' hqe
        · intro k₀ t₀ hacc
          have h1 := hbound p.1 p.2.timestamp hstep
          have h2 := hpbound k₀ t₀ hacc
          omega
      · -- the step kept the accumulator
        rw [hstep] at horig hbound
        refine ⟨?_, ?_, hbound⟩
        · rcases horig with h' | ⟨e, hmem, het, he⟩
          · exact Or.inl h'
          · exact Or.inr ⟨e, List.mem_cons_of_mem _ hmem, het, he⟩
        · intro q hq hqe
          rcases List.mem_cons.mp hq with h' | h'
          · subst h'
            rcases hkeep with hexp | ⟨k₀, t₀, hacc, hle⟩
            · rw [hqe] at hexp; cases hexp
            · have := hbound k₀ t₀ hacc
              omega
          · exact hmin q h' hqe

lemma findOldestEntry_spec (now : Nat) (c : MetricCache K T) (o : K)
    (h : findOldestEntry now c = some o) :
    ∃ e, (o, e) ∈ c.cache ∧ isEntryExpired now e = false ∧
      ∀ q ∈ c.cache, isEntryExpired now q.2 = false →
        e.timestamp ≤ q.2.timestamp := by
  unfold findOldestEntry at h
  cases hf : c.cache.foldl (oldestStep now) none with
  | none => rw [hf] at h; simp at h
  | some kt =>
      obtain ⟨o', t⟩ := kt
      rw [hf] at h
      have ho : o' = o := by simpa using h
      subst ho
      obtain ⟨horig, hmin, -⟩ := foldl_oldestStep_min now c.cache none o' t hf
      rcases horig with h' | ⟨e, hmem, het, he⟩
      · cases h'
      · subst het
        exact ⟨e, hmem, he, hmin⟩

lemma findOldestEntry_isSome (now : Nat) (c : MetricCache K T)
    (q : K × CacheEntry T) (hq : q ∈ c.cache)
    (hqe : isEntryExpired now q.2 = false) :
    ∃ o, findOldestEntry now c = some o := by
  unfold findOldestEntry
  cases hf : c.cache.foldl (oldestStep now) none with
  | none =>
      obtain ⟨-, hall⟩ := foldl_oldestStep_eq_none now c.cache none hf
      rw [hall q hq] at hqe
      cases hqe
  | some kt => exact ⟨kt.1, by simp⟩

lemma foldl_oldestStep_keep (now : Nat) (l : List (K × CacheEntry T))
    (k : K) : l.foldl (oldestStep now) (some (k, 0)) = some (k, 0) := by
  induction l with
  | nil => rfl
  | cons p rest ih =>
      have hstep : oldestStep now (some (k, 0)) p = some (k, 0) := by
        unfold oldestStep
        simp
      rw [List.foldl_cons, hstep, ih]

end OldestEntryLemmas

section EvictionLemmas

open MetricCache

variable {K T : Type} [DecidableEq K]

lemma evictIfNeeded_subset (c : MetricCache K T) (now : Nat)
    (p : K × CacheEntry T) (hp : p ∈ (evictIfNeeded c now).cache) :
    p ∈ c.cache := by
  unfold evictIfNeeded at hp
  by_cases hcap : MAX_CACHE_SIZE ≤ c.cache.length
  · rw [if_pos hcap] at hp
    cases ho : findOldestEntry now c with
    | none => rw [ho] at hp; exact hp
    | some o => rw [ho] at hp; exact mem_mapDelete _ _ _ hp
  · rw [if_neg hcap] at hp; exact hp

lemma set_entries_subset (c : MetricCache K T) (k : K) (v : T) (now : Nat)
    (p : K × CacheEntry T) (hp : p ∈ (MetricCache.set c k v now).cache) :
    p ∈ c.cache ∨ p.2 = ⟨v, now⟩ := by
  unfold MetricCache.set at hp
  rcases mem_mapSet _ _ _ _ hp with h | h
  · exact Or.inl (evictIfNeeded_subset c now p h)
  · right; rw [h]

lemma set_length_le (c : MetricCache K T) (k : K) (v : T) (now : Nat)
    (hc : c.cache.length ≤ MAX_CACHE_SIZE)
    (hne : MAX_CACHE_SIZE ≤ c.cache.length →
      ∃ q ∈ c.cache, isEntryExpired now q.2 = false) :
    (MetricCache.set c k v now).cache.length ≤ MAX_CACHE_SIZE := by
  have hms := length_mapSet_le (evictIfNeeded c now).cache k
    (⟨v, now⟩ : CacheEntry T)
  show (mapSet (evictIfNeeded c now).cache k ⟨v, now⟩).length ≤ MAX_CACHE_SIZE
  by_cases hcap : MAX_CACHE_SIZE ≤ c.cache.length
  · obtain ⟨q, hq, hqe⟩ := hne hcap
    obtain ⟨o, ho⟩ := findOldestEntry_isSome now c q hq hqe
    obtain ⟨e, hmem, -, -⟩ := findOldestEntry_spec now c o ho
    have hdel : (evictIfNeeded c now).cache.length + 1 = c.cache.length := by
      unfold evictIfNeeded
      rw [if_pos hcap, ho]
      exact length_mapDelete_of_mem _ _ (List.mem_map_of_mem Prod.fst hmem)
    omega
  · have heq : evictIfNeeded c now = c := by
      unfold evictIfNeeded; rw [if_neg hcap]
    rw [heq] at hms ⊢
    omega

lemma runSetsFrom_length_le :
    ∀ (ops : List (K × T × Nat)) (c : MetricCache K T),
      c.cache.length ≤ MAX_CACHE_SIZE →
      (∀ p ∈ c.cache, ∀ op ∈ ops,
        op.2.2 - p.2.timestamp ≤ CACHE_EXPIRY) →
      ops.Pairwise
        (fun a b => a.2.2 ≤ b.2.2 ∧ b.2.2 - a.2.2 ≤ CACHE_EXPIRY) →
      (ops.foldl (fun c op => MetricCache.set c op.1 op.2.1 op.2.2)
        c).cache.length ≤ MAX_CACHE_SIZE := by
  intro ops
  induction ops with
  | nil => intro c hc _ _; simpa using hc
  | cons op rest ih =>
      intro c hc hfresh hpw
      rw [List.foldl_cons]
      rw [List.pairwise_cons] at hpw
      obtain ⟨hhead, hpw'⟩ := hpw
      apply ih
      · apply set_length_le c op.1 op.2.1 op.2.2 hc
        intro hcap
        have hmax : (0 : Nat) < MAX_CACHE_SIZE := by
          simp [MAX_CACHE_SIZE]
        have hlen : 0 < c.cache.length := by omega
        obtain ⟨p, hp⟩ := List.exists_mem_of_length_pos hlen
        refine ⟨p, hp, ?_⟩
        have hf := hfresh p hp op (List.mem_cons_self op rest)
        simp only [isEntryExpired, decide_eq_false_iff_not, not_lt, gt_iff_lt]
        omega
      · intro p hp op' hop'
        rcases set_entries_subset c op.1 op.2.1 op.2.2 p hp with h | h
        · exact hfresh p h op' (List.mem_cons_of_mem _ hop')
        · rw [h]
          exact (hhead op' hop').2
      · exact hpw'

end EvictionLemmas

section CacheTheorems

open MetricCache

/-- C4: `MetricCache.get` returns the stored value exactly when
`now − writtenAt ≤ TTL` (24 h); an expired entry is deleted and the
result is absent; in particular an entry written at `t0` is absent at
any time strictly after `t0 + TTL`. -/
theorem c4_get_ttl {K T : Type} [DecidableEq K] (c : MetricCache K T)
    (k : K) (e : CacheEntry T) (now : Nat)
    (hfound : mapGet c.cache k = some e) :
    ((MetricCache.get c k now).1 = some e.data ↔
      now - e.timestamp ≤ CACHE_EXPIRY) ∧
    (CACHE_EXPIRY < now - e.timestamp →
      MetricCache.get c k now = (none, ⟨mapDelete c.cache k⟩)) ∧
    (e.timestamp + CACHE_EXPIRY < now →
      (MetricCache.get c k now).1 = none) := by
  unfold MetricCache.get
  rw [hfound]
  by_cases hexp : CACHE_EXPIRY < now - e.timestamp
  · simp [isEntryExpired, hexp, Nat.not_le.mpr hexp]
  · have hle : now - e.timestamp ≤ CACHE_EXPIRY := Nat.not_lt.mp hexp
    have hnot : ¬ e.timestamp + CACHE_EXPIRY < now := by omega
    simp [isEntryExpired, hexp, hle, hnot]

/-- Witness for `c4_get_ttl` at a concrete one-entry cache queried just
after the TTL has elapsed. -/
theorem c4_get_ttl_witness :
    mapGet (MetricCache.cache ⟨[(0, ⟨7, 10⟩)]⟩ : List (Nat × CacheEntry Nat)) 0
      = some ⟨7, 10⟩ ∧
    (((MetricCache.get (⟨[(0, ⟨7, 10⟩)]⟩ : MetricCache Nat Nat) 0 86400011).1
        = some 7 ↔ 86400011 - 10 ≤ CACHE_EXPIRY) ∧
      (CACHE_EXPIRY < 86400011 - 10 →
        MetricCache.get (⟨[(0, ⟨7, 10⟩)]⟩ : MetricCache Nat Nat) 0 86400011
          = (none, ⟨mapDelete [(0, ⟨7, 10⟩)] 0⟩)) ∧
      (10 + CACHE_EXPIRY < 86400011 →
        (MetricCache.get (⟨[(0, ⟨7, 10⟩)]⟩ : MetricCache Nat Nat) 0
          86400011).1 = none)) :=
  ⟨rfl, c4_get_ttl ⟨[(0, ⟨7, 10⟩)]⟩ 0 ⟨7, 10⟩ 86400011 rfl⟩

/-- C3 (amended): with no intervening expiry (`set` timestamps
nondecreasing and pairwise within the TTL), a sequence of `set` calls
keeps the cache at or below `MAX_CACHE_SIZE` entries; a `set` call
evicts exactly when it finds the backing map at capacity — even when
the key being written is already present, in which case the map shrinks
below capacity — and the evicted entry is a non-expired entry of
minimal `writtenAt` timestamp. -/
theorem c3_eviction_amended {K T : Type} [DecidableEq K] :
    (∀ ops : List (K × T × Nat),
      ops.Pairwise
        (fun a b => a.2.2 ≤ b.2.2 ∧ b.2.2 - a.2.2 ≤ CACHE_EXPIRY) →
      (runSets ops).cache.length ≤ MAX_CACHE_SIZE) ∧
    (∀ (c : MetricCache K T) (k : K) (v : T) (now : Nat),
      c.cache.length < MAX_CACHE_SIZE →
      MetricCache.set c k v now = ⟨mapSet c.cache k ⟨v, now⟩⟩) ∧
    (∀ (c : MetricCache K T) (k : K) (v : T) (now : Nat),
      MAX_CACHE_SIZE ≤ c.cache.length →
      (∃ q ∈ c.cache, isEntryExpired now q.2 = false) →
      ∃ o e, (o, e) ∈ c.cache ∧ isEntryExpired now e = false ∧
        (∀ q ∈ c.cache, isEntryExpired now q.2 = false →
          e.timestamp ≤ q.2.timestamp) ∧
        MetricCache.set c k v now
          = ⟨mapSet (mapDelete c.cache o) k ⟨v, now⟩⟩) := by
  refine ⟨?_, ?_, ?_⟩
  · intro ops hpw
    exact runSetsFrom_length_le ops MetricCache.empty
      (by simp [MetricCache.empty]) (by simp [MetricCache.empty]) hpw
  · intro c k v now hlt
    unfold MetricCache.set evictIfNeeded
    rw [if_neg (Nat.not_le.mpr hlt)]
  · rintro c k v now hcap ⟨q, hq, hqe⟩
    obtain ⟨o, ho⟩ := findOldestEntry_isSome now c q hq hqe
    obtain ⟨e, hmem, hexp, hmin⟩ := findOldestEntry_spec now c o ho
    refine ⟨o, e, hmem, hexp, hmin, ?_⟩
    unfold MetricCache.set evictIfNeeded
    rw [if_pos hcap, ho]

/-- Witness for `c3_eviction_amended`: on a concrete one-entry cache a
below-capacity `set` performs no eviction. -/
theorem c3_eviction_amended_witness :
    (⟨[(0, ⟨5, 1⟩)]⟩ : MetricCache Nat Nat).cache.length < MAX_CACHE_SIZE
    ∧ MetricCache.set (⟨[(0, ⟨5, 1⟩)]⟩ : MetricCache Nat Nat) 1 6 2
        = ⟨mapSet [(0, ⟨5, 1⟩)] 1 ⟨6, 2⟩⟩ :=
  ⟨by norm_num [MAX_CACHE_SIZE],
   c3_eviction_amended.2.1 ⟨[(0, ⟨5, 1⟩)]⟩ 1 6 2
     (by norm_num [MAX_CACHE_SIZE])⟩

lemma runSets_insertOps : ∀ n, n ≤ MAX_CACHE_SIZE →
    (runSets (insertOps n)).cache = entriesUpTo n := by
  intro n
  induction n with
  | zero => intro _; rfl
  | succ m ih =>
      intro hn
      have hm := Nat.le_of_succ_le hn
      have hprev : runSets (insertOps m)
          = (⟨entriesUpTo m⟩ : MetricCache Nat Nat) := by
        rw [← ih hm]
      have hsplit : insertOps (m + 1) = insertOps m ++ [(m, 0, m)] := by
        unfold insertOps
        rw [List.range_succ, List.map_append]
        rfl
      rw [hsplit]
      unfold runSets
      rw [List.foldl_append]
      have hfold : (insertOps m).foldl
          (fun c op => MetricCache.set c op.1 op.2.1 op.2.2)
          MetricCache.empty = runSets (insertOps m) := rfl
      rw [hfold, hprev]
      simp only [List.foldl_cons, List.foldl_nil]
      have hlen : (entriesUpTo m).length = m := by
        simp [entriesUpTo]
      have hnoev : evictIfNeeded (⟨entriesUpTo m⟩ : MetricCache Nat Nat) m
          = ⟨entriesUpTo m⟩ := by
        unfold evictIfNeeded
        rw [if_neg]
        show ¬ MAX_CACHE_SIZE ≤ (entriesUpTo m).length
        rw [hlen]
        simp only [MAX_CACHE_SIZE] at hn ⊢
        omega
      have hnotmem : m ∉ (entriesUpTo m).map Prod.fst := by
        simp [entriesUpTo]
      show (mapSet
        (evictIfNeeded (⟨entriesUpTo m⟩ : MetricCache Nat Nat) m).cache
        m ⟨0, m⟩) = entriesUpTo (m + 1)
      rw [hnoev]
      show mapSet (entriesUpTo m) m ⟨0, m⟩ = entriesUpTo (m + 1)
      rw [mapSet_of_not_mem _ _ _ hnotmem]
      unfold entriesUpTo
      rw [List.range_succ, List.map_append]
      rfl

lemma entriesUpTo_500 : entriesUpTo 500 = (0, ⟨0, 0⟩) :: tail499 := by
  unfold entriesUpTo tail499
  rw [show (500 : Nat) = 499 + 1 from rfl, List.range_succ_eq_map]
  simp [List.map_map, Function.comp, Nat.succ_eq_add_one]

lemma findOldest_500 :
    findOldestEntry 500 (⟨entriesUpTo 500⟩ : MetricCache Nat Nat)
      = some 0 := by
  unfold findOldestEntry
  show ((entriesUpTo 500).foldl (oldestStep 500) none).map
    (fun p => p.1) = some 0
  rw [entriesUpTo_500, List.foldl_cons]
  have h1 : oldestStep 500 (none : Option (Nat × Nat))
      (0, (⟨0, 0⟩ : CacheEntry Nat)) = some (0, 0) := rfl
  rw [h1, foldl_oldestStep_keep]
  rfl

/-- C3 counterexample: starting from an empty cache, 500 distinct keys
are inserted at times `0,…,499` (no expiry anywhere near the 24 h TTL);
the next `set` call writes key `42`, which is already present — so a
new insertion would not exceed capacity and, per the claim, no eviction
should happen — yet the call evicts the oldest entry: afterwards the
map holds only 499 entries and key `0` is gone.  Extending the call
sequence with fresh keys (e.g. key `500` at time `501`) makes it a
sequence with more than 500 distinct keys without changing this
step. -/
theorem c3_counterexample :
    (runSets (insertOps 500)).cache = entriesUpTo 500 ∧
    (mapGet (entriesUpTo 500) 42).isSome = true ∧
    (entriesUpTo 500).length = 500 ∧
    (MetricCache.set (⟨entriesUpTo 500⟩ : MetricCache Nat Nat) 42 0
      500).cache.length = 499 ∧
    mapGet (MetricCache.set (⟨entriesUpTo 500⟩ : MetricCache Nat Nat)
      42 0 500).cache 0 = none := by
  have hlen500 : (entriesUpTo 500).length = 500 := by
    simp [entriesUpTo]
  have hcap : MAX_CACHE_SIZE
      ≤ (⟨entriesUpTo 500⟩ : MetricCache Nat Nat).cache.length := by
    show MAX_CACHE_SIZE ≤ (entriesUpTo 500).length
    rw [hlen500]
    exact Nat.le_refl 500
  have hset : MetricCache.set (⟨entriesUpTo 500⟩ : MetricCache Nat Nat)
      42 0 500 = ⟨mapSet tail499 42 ⟨0, 500⟩⟩ := by
    unfold MetricCache.set evictIfNeeded
    rw [if_pos hcap, findOldest_500]
    rw [entriesUpTo_500]
    rfl
  have h42 : (42 : Nat) ∈ tail499.map Prod.fst := by
    simp only [tail499, List.map_map]
    simp only [List.mem_map, List.mem_range, Function.comp]
    exact ⟨41, by omega, by norm_num⟩
  refine ⟨runSets_insertOps 500 (le_refl _), ?_, hlen500, ?_, ?_⟩
  · rw [mapGet_isSome_iff]
    simp [entriesUpTo]
  · rw [hset]
    show (mapSet tail499 42 ⟨0, 500⟩).length = 499
    rw [length_mapSet_of_mem _ _ _ h42]
    simp [tail499]
  · rw [hset]
    show mapGet (mapSet tail499 42 ⟨0, 500⟩) 0 = none
    rw [mapGet_mapSet_ne _ _ _ _ (by norm_num)]
    apply mapGet_eq_none_of_not_mem
    simp [tail499]

end CacheTheorems

section AggregationTheorems

/-- The rational filter test `(val − mean)² ≤ 4·variance` used in
`calculateAverageComplexity` agrees with the source's
`Math.abs(val - mean) <= Math.sqrt(variance) * 2` over the reals. -/
lemma filter_test_eq_sqrt_test (x a : ℝ) (ha : 0 ≤ a) :
    (|x| ≤ Real.sqrt a * 2) ↔ x ^ 2 ≤ 4 * a := by
  constructor
  · intro h
    have h2 : |x| ^ 2 ≤ (Real.sqrt a * 2) ^ 2 :=
      pow_le_pow_left₀ (abs_nonneg x) h 2
    rw [sq_abs] at h2
    calc x ^ 2 ≤ (Real.sqrt a * 2) ^ 2 := h2
      _ = 4 * a := by rw [mul_pow, Real.sq_sqrt ha]; ring
  · intro h
    have h1 : Real.sqrt (x ^ 2) ≤ Real.sqrt (4 * a) := Real.sqrt_le_sqrt h
    rw [Real.sqrt_sq_eq_abs] at h1
    calc |x| ≤ Real.sqrt (4 * a) := h1
      _ = Real.sqrt a * 2 := by
          rw [show (4 : ℝ) * a = a * 2 ^ 2 by ring, Real.sqrt_mul ha,
            Real.sqrt_sq (by norm_num)]

/-- C2 counterexample: for cached complexities `[1,1,1,1,100]` the
"outlier-filtered" average is exactly the unfiltered mean
`104/5 = 20.8`, not a value close to 1: the deviation of `100` from
the mean is `79.2 = 2σ` exactly (`σ = 39.6`), and the source's `<=`
filter keeps boundary values.  IEEE-754 evaluation agrees —
`Math.abs(100 - mean)` and `stdDev * 2` round to the same double — so
the JavaScript run also keeps the `100`. -/
theorem c2_counterexample :
    calculateAverageComplexity [1, 1, 1, 1, 100] = 104 / 5 ∧
    (104 : ℚ) / 5 = 20.8 := by
  constructor
  · norm_num [calculateAverageComplexity, List.filter]
  · norm_num

/-- C2 (amended): on `[1,1,1,1,100]` the squared deviation of `100`
from the mean equals `4·variance` exactly, the two-standard-deviation
filter therefore keeps every value, and the aggregation returns the
unfiltered mean `20.8`. -/
theorem c2_outlier_boundary_amended :
    calculateAverageComplexity [1, 1, 1, 1, 100] = 20.8 ∧
    ([1, 1, 1, 1, 100] : List ℚ).filter
      (fun v => (v - 104 / 5) ^ 2 ≤ 4 * (39204 / 25))
        = [1, 1, 1, 1, 100] ∧
    ((100 : ℚ) - 104 / 5) ^ 2 = 4 * (39204 / 25) := by
  refine ⟨?_, ?_, by norm_num⟩
  · norm_num [calculateAverageComplexity, List.filter]
  · norm_num [List.filter]

end AggregationTheorems

section IdleTheorems

lemma updateLast_append {α : Type} (f : α → α) :
    ∀ (l : List α) (a : α), updateLast f (l ++ [a]) = l ++ [f a] := by
  intro l a
  induction l with
  | nil => rfl
  | cons x rest ih =>
      cases rest with
      | nil => rfl
      | cons y t =>
          show x :: updateLast f ((y :: t) ++ [a]) = x :: ((y :: t) ++ [f a])
          rw [ih]

/-- C9: a `checkIdleTime` tick with a six-minute gap since the last
activity adds the entire gap to the current session's accumulated idle
time and resets `lastActivityTime` to the check time; a gap at or
below the five-minute threshold leaves the whole state unchanged. -/
theorem c9_idle_check {K : Type} (s : MetricsTracker K)
    (inits : List (SessionData K)) (cur : SessionData K) (now : Nat)
    (hlog : s.sessionsLog = inits ++ [cur]) :
    (now - s.lastActivityTime = 360000 →
      checkIdleTime s now =
        { s with
          sessionsLog :=
            inits ++ [{ cur with idleTime := cur.idleTime + 360000 }]
          lastActivityTime := now }) ∧
    (now - s.lastActivityTime ≤ idleThreshold →
      checkIdleTime s now = s) := by
  constructor
  · intro hgap
    have hcond : idleThreshold < now - s.lastActivityTime := by
      rw [hgap]; norm_num [idleThreshold]
    simp only [checkIdleTime]
    rw [if_pos hcond, hlog, updateLast_append, hgap]
  · intro hle
    simp only [checkIdleTime]
    rw [if_neg (Nat.not_lt.mpr hle)]

/-- Witness for `c9_idle_check` on a concrete tracker state: a
six-minute gap credits exactly six minutes of idle time. -/
theorem c9_idle_check_witness :
    checkIdleTime
      (⟨⟨[]⟩, [⟨0, none, 0, 0, []⟩], 0⟩ : MetricsTracker Nat) 360000
      = ⟨⟨[]⟩, [⟨0, none, 360000, 0, []⟩], 360000⟩ := by
  have h := (c9_idle_check
    (⟨⟨[]⟩, [⟨0, none, 0, 0, []⟩], 0⟩ : MetricsTracker Nat)
    [] ⟨0, none, 0, 0, []⟩ 360000 rfl).1 rfl
  simpa using h

end IdleTheorems

section DebounceTheorems

/-- C8: two `queueFileTracking` calls for the same file within the
300 ms debounce window result in exactly one executed callback, the
one from the later call: the second schedule cancels and replaces the
pending timer, so the first callback never fires. -/
theorem c8_debounce_latest_wins {K C : Type} [DecidableEq K]
    (f : K) (cb1 cb2 : C) (t1 t2 : Nat) (_h1 : t1 ≤ t2)
    (h2 : t2 < t1 + debounceTime) :
    (fireAll (runDebounce [⟨f, cb1, t1⟩, ⟨f, cb2, t2⟩])).executed
      = [(f, cb2)] := by
  have hno : ¬ (t1 + debounceTime ≤ t2) := Nat.not_le.mpr h2
  simp [runDebounce, fireDue, fireAll, mapSet, sortByFire, insertByFire,
    hno]

/-- Witness for `c8_debounce_latest_wins`: calls at `t = 0` ms and
`t = 100` ms for the same file leave exactly the second callback. -/
theorem c8_debounce_latest_wins_witness :
    (0 : Nat) ≤ 100 ∧ (100 : Nat) < 0 + debounceTime ∧
    (fireAll (runDebounce
      [⟨0, 10, 0⟩, (⟨0, 20, 100⟩ : SchedEvent Nat Nat)])).executed
      = [(0, 20)] :=
  ⟨by norm_num, by norm_num [debounceTime],
    c8_debounce_latest_wins 0 10 20 0 100 (by norm_num)
      (by norm_num [debounceTime])⟩

end DebounceTheorems

section AnalyzerTheorems

lemma visitNode_cc (s : TraverseState) (k : SyntaxKind) :
    (visitNode s k).cyclomaticComplexity
      = s.cyclomaticComplexity + kindIncrement k := by
  cases k
  case binaryExpression op =>
    simp only [visitNode, kindIncrement]
    split_ifs <;> simp
  all_goals simp [visitNode, kindIncrement]

mutual
theorem traverse_cc : ∀ (t : TsNode) (s : TraverseState),
    (traverse s t).cyclomaticComplexity
      = s.cyclomaticComplexity + ccCount t
  | .node k children, s => by
      show (traverseList (visitNode s k) children).cyclomaticComplexity
        = s.cyclomaticComplexity + ccCount (.node k children)
      rw [traverseList_cc children, visitNode_cc s k]
      show s.cyclomaticComplexity + kindIncrement k + ccCountList children
        = s.cyclomaticComplexity + (kindIncrement k + ccCountList children)
      omega
theorem traverseList_cc : ∀ (l : TsNodeList) (s : TraverseState),
    (traverseList s l).cyclomaticComplexity
      = s.cyclomaticComplexity + ccCountList l
  | .nil, s => by
      show s.cyclomaticComplexity = s.cyclomaticComplexity + 0
      omega
  | .cons c rest, s => by
      show (traverseList (traverse s c) rest).cyclomaticComplexity
        = s.cyclomaticComplexity + ccCountList (.cons c rest)
      rw [traverseList_cc rest, traverse_cc c]
      show s.cyclomaticComplexity + ccCount c + ccCountList rest
        = s.cyclomaticComplexity + (ccCount c + ccCountList rest)
      omega
end

lemma kindIncrement_decompose (k : SyntaxKind) :
    kindIncrement k
      = (if isIfKind k then 1 else 0) + (if isAmpAmpKind k then 1 else 0)
        + (if isOtherCcKind k then 1 else 0) := by
  cases k with
  | binaryExpression op =>
      obtain ⟨opk, optext⟩ := op
      cases opk <;>
        simp [kindIncrement, isIfKind, isAmpAmpKind, isOtherCcKind]
  | _ =>
      simp [kindIncrement, isIfKind, isAmpAmpKind, isOtherCcKind]

mutual
theorem ccCount_decompose : ∀ t : TsNode,
    ccCount t = countNodes isIfKind t + countNodes isAmpAmpKind t
      + countNodes isOtherCcKind t
  | .node k children => by
      show kindIncrement k + ccCountList children = _
      rw [kindIncrement_decompose k, ccCountList_decompose children]
      show _ = (if isIfKind k then 1 else 0) + countNodesList isIfKind children
        + ((if isAmpAmpKind k then 1 else 0)
            + countNodesList isAmpAmpKind children)
        + ((if isOtherCcKind k then 1 else 0)
            + countNodesList isOtherCcKind children)
      omega
theorem ccCountList_decompose : ∀ l : TsNodeList,
    ccCountList l = countNodesList isIfKind l
      + countNodesList isAmpAmpKind l + countNodesList isOtherCcKind l
  | .nil => by
      show (0 : Nat) = 0 + 0 + 0
      omega
  | .cons c rest => by
      show ccCount c + ccCountList rest = _
      rw [ccCount_decompose c, ccCountList_decompose rest]
      show _ = countNodes isIfKind c + countNodesList isIfKind rest
        + (countNodes isAmpAmpKind c + countNodesList isAmpAmpKind rest)
        + (countNodes isOtherCcKind c + countNodesList isOtherCcKind rest)
      omega
end

/-- C6: structured analysis of a syntax tree containing exactly one
`if` statement, exactly one `&&` binary expression, and no other
complexity-incrementing construct yields cyclomatic complexity 3
(base 1, plus 1 for the `if`, plus 1 for the `&&`) — for any source
text, any surrounding non-incrementing nodes, and any log
functions. -/
theorem c6_structured_if_and (ln log2 : ℚ → ℚ) (sourceCode : List Char)
    (t : TsNode) (hifc : countNodes isIfKind t = 1)
    (hamp : countNodes isAmpAmpKind t = 1)
    (hother : countNodes isOtherCcKind t = 0) :
    (analyzeTypeScriptComplexity ln log2 sourceCode
      t).cyclomaticComplexity = 3 := by
  have hcc : ccCount t = 2 := by
    rw [ccCount_decompose, hifc, hamp, hother]
  show ((min (traverse ⟨1, [], [], 0, 0⟩ t).cyclomaticComplexity 100
    : Nat) : ℚ) = 3
  rw [traverse_cc t]
  show ((min (1 + ccCount t) 100 : Nat) : ℚ) = 3
  rw [hcc]
  norm_num

/-- The parse tree of `if (a && b) ;` under a source-file root: an
`if` whose condition is `a && b` and whose body is an empty
statement. -/
def ifAndTree : TsNode :=
  .node .other (.cons
    (.node .ifStatement (.cons
      (.node (.binaryExpression ⟨.ampersandAmpersandToken, "&&"⟩)
        (.cons (.node (.identifier "a") .nil)
          (.cons (.node (.identifier "b") .nil) .nil)))
      (.cons (.node .other .nil) .nil)))
    .nil)

/-- Witness for `c6_structured_if_and` on the tree of
`if (a && b) ;`. -/
theorem c6_structured_if_and_witness :
    countNodes isIfKind ifAndTree = 1 ∧
    countNodes isAmpAmpKind ifAndTree = 1 ∧
    countNodes isOtherCcKind ifAndTree = 0 ∧
    (analyzeTypeScriptComplexity (fun _ => 0) (fun _ => 0) []
      ifAndTree).cyclomaticComplexity = 3 :=
  ⟨rfl, rfl, rfl,
    c6_structured_if_and (fun _ => 0) (fun _ => 0) [] ifAndTree rfl rfl rfl⟩

lemma foldl_add_init_le {α : Type} (f : α → Nat) :
    ∀ (l : List α) (acc : Nat),
      acc ≤ l.foldl (fun a x => a + f x) acc := by
  intro l
  induction l with
  | nil => intro acc; exact le_refl acc
  | cons x rest ih =>
      intro acc
      calc acc ≤ acc + f x := Nat.le_add_right _ _
        _ ≤ _ := ih (acc + f x)

lemma quickAnalyze_bounds (sourceCode : List Char) (language : String) :
    1 ≤ (quickAnalyze sourceCode language).cyclomaticComplexity ∧
    0 ≤ (quickAnalyze sourceCode language).maintainabilityIndex ∧
    (quickAnalyze sourceCode language).maintainabilityIndex ≤ 100 := by
  unfold quickAnalyze
  dsimp only
  refine ⟨?_, le_max_left 0 _, ?_⟩
  · have h : 1 ≤ min 20 (max 1 ((splitLines sourceCode).length / 50)) := by
      omega
    exact_mod_cast h
  · apply max_le (by norm_num)
    have h : (0 : ℚ) ≤
        ((min 20 (max 1 ((splitLines sourceCode).length / 50)) : Nat) : ℚ) :=
      Nat.cast_nonneg _
    linarith

lemma analyzeTypeScriptComplexity_bounds (ln log2 : ℚ → ℚ)
    (sourceCode : List Char) (t : TsNode) :
    1 ≤ (analyzeTypeScriptComplexity ln log2 sourceCode
        t).cyclomaticComplexity ∧
    0 ≤ (analyzeTypeScriptComplexity ln log2 sourceCode
        t).maintainabilityIndex ∧
    (analyzeTypeScriptComplexity ln log2 sourceCode
        t).maintainabilityIndex ≤ 100 := by
  unfold analyzeTypeScriptComplexity
  dsimp only
  refine ⟨?_, le_max_left 0 _, max_le (by norm_num) (min_le_left _ _)⟩
  have h : 1 ≤ min (traverse ⟨1, [], [], 0, 0⟩ t).cyclomaticComplexity 100 := by
    rw [traverse_cc t]
    show 1 ≤ min (1 + ccCount t) 100
    omega
  exact_mod_cast h

lemma analyzePythonComplexity_bounds (log2 : ℚ → ℚ)
    (sourceCode : List Char) :
    1 ≤ (analyzePythonComplexity log2 sourceCode).cyclomaticComplexity ∧
    0 ≤ (analyzePythonComplexity log2 sourceCode).maintainabilityIndex ∧
    (analyzePythonComplexity log2 sourceCode).maintainabilityIndex
      ≤ 100 := by
  unfold analyzePythonComplexity
  dsimp only
  refine ⟨?_, le_max_left 0 _, max_le (by norm_num) (min_le_left _ _)⟩
  have h := foldl_add_init_le pythonLineIncrement (splitLines sourceCode) 1
  exact_mod_cast h

lemma fallbackComplexityAnalysis_bounds (sourceCode : List Char) :
    1 ≤ (fallbackComplexityAnalysis sourceCode).cyclomaticComplexity ∧
    0 ≤ (fallbackComplexityAnalysis sourceCode).maintainabilityIndex ∧
    (fallbackComplexityAnalysis sourceCode).maintainabilityIndex
      ≤ 100 := by
  unfold fallbackComplexityAnalysis
  dsimp only
  refine ⟨?_, le_max_left 0 _, ?_⟩
  · have h := foldl_add_init_le fallbackLineIncrement
      (splitLines sourceCode) 1
    have h2 : 1 ≤ min ((splitLines sourceCode).foldl
        (fun acc line => acc + fallbackLineIncrement line) 1) 50 := by
      omega
    exact_mod_cast h2
  · apply max_le (by norm_num)
    have h1 : (0 : ℚ) ≤ ((min ((splitLines sourceCode).foldl
        (fun acc line => acc + fallbackLineIncrement line) 1) 50 : Nat)
        : ℚ) := Nat.cast_nonneg _
    have h2 : (0 : ℚ) ≤ ((splitLines sourceCode).length : ℚ) :=
      Nat.cast_nonneg _
    linarith

/-- C1: for every source text, every language tag, every parser
behaviour and every floating-point log function, the metrics returned
by `analyzeComplexity` and by `quickAnalyze` satisfy
`cyclomaticComplexity ≥ 1` and `0 ≤ maintainabilityIndex ≤ 100`. -/
theorem c1_metric_bounds (ln log2 : ℚ → ℚ)
    (parse : List Char → Option TsNode) (sourceCode : List Char)
    (language : String) :
    (1 ≤ (analyzeComplexity ln log2 parse sourceCode
        language).cyclomaticComplexity ∧
      0 ≤ (analyzeComplexity ln log2 parse sourceCode
        language).maintainabilityIndex ∧
      (analyzeComplexity ln log2 parse sourceCode
        language).maintainabilityIndex ≤ 100) ∧
    (1 ≤ (quickAnalyze sourceCode language).cyclomaticComplexity ∧
      0 ≤ (quickAnalyze sourceCode language).maintainabilityIndex ∧
      (quickAnalyze sourceCode language).maintainabilityIndex ≤ 100) := by
  refine ⟨?_, quickAnalyze_bounds sourceCode language⟩
  unfold analyzeComplexity
  dsimp only
  split_ifs
  · cases hp : parse sourceCode with
    | some t => exact analyzeTypeScriptComplexity_bounds ln log2 sourceCode t
    | none => exact fallbackComplexityAnalysis_bounds sourceCode
  · exact analyzePythonComplexity_bounds log2 sourceCode
  · exact fallbackComplexityAnalysis_bounds sourceCode

/-- C10: `getComplexityRecommendations` returns between one and three
messages, at most one from each threshold group, and returns exactly
the single positive message precisely when no threshold is crossed
(cyclomatic ≤ 10, maintainability ≥ 60, Halstead difficulty ≤ 30). -/
theorem c10_recommendations (metrics : ComplexityMetrics) :
    1 ≤ (getComplexityRecommendations metrics).length ∧
    (getComplexityRecommendations metrics).length ≤ 3 ∧
    ¬ ("High cyclomatic complexity. Refactor into smaller functions."
          ∈ getComplexityRecommendations metrics ∧
        "Moderate complexity. Simplify nested conditions."
          ∈ getComplexityRecommendations metrics) ∧
    ¬ ("Low maintainability. Break into smaller modules."
          ∈ getComplexityRecommendations metrics ∧
        "Moderate maintainability. Improve documentation."
          ∈ getComplexityRecommendations metrics) ∧
    (getComplexityRecommendations metrics
        = ["Code quality metrics are within recommended ranges."] ↔
      metrics.cyclomaticComplexity ≤ 10 ∧
        60 ≤ metrics.maintainabilityIndex ∧
        metrics.halsteadMetrics.difficulty ≤ 30) := by
  unfold getComplexityRecommendations
  split_ifs with h1 h2 h3 h4 h5 <;> simp_all <;> intros <;> linarith

/-- Witness for `c10_recommendations`: metrics below every threshold
get exactly the positive message. -/
theorem c10_recommendations_witness :
    getComplexityRecommendations ⟨1, 1, 80, ⟨1, 10, 10⟩⟩
      = ["Code quality metrics are within recommended ranges."] :=
  (c10_recommendations ⟨1, 1, 80, ⟨1, 10, 10⟩⟩).2.2.2.2.mpr
    (by norm_num)

lemma foldl_add_eq_sum {α : Type} (f : α → Nat) :
    ∀ (l : List α) (n : Nat),
      l.foldl (fun a x => a + f x) n = n + (l.map f).sum := by
  intro l
  induction l with
  | nil => intro n; simp
  | cons x rest ih =>
      intro n
      rw [List.foldl_cons, ih, List.map_cons, List.sum_cons]
      omega

/-- C7 counterexample: the one-line Python source
`while a if b else c` contains two recognized control-flow keyword
occurrences (`while` and `if`), so per-occurrence counting as claimed
would give cyclomatic complexity 1 + 2 = 3; the code's per-line
boolean `.test` adds only 1 for the whole group, giving 2. -/
theorem c7_counterexample :
    specPyControlOccurrences (trimWs pyTwoKeywordLine) = 2 ∧
    (analyzePythonComplexity (fun _ => 0)
      pyTwoKeywordLine).cyclomaticComplexity = 2 ∧
    (2 : ℚ) ≠ 1 + 2 := by
  refine ⟨rfl, ?_, by norm_num⟩
  show (((splitLines pyTwoKeywordLine).foldl
    (fun acc line => acc + pythonLineIncrement line) 1 : Nat) : ℚ) = 2
  norm_num [show (splitLines pyTwoKeywordLine).foldl
    (fun acc line => acc + pythonLineIncrement line) 1 = 2 from rfl]

/-- C7 (amended): pattern-based Python analysis works per line: blank
and `#`-comment lines contribute nothing; any other line contributes 1
if it contains a `def`-definition match, at most 1 for all of its
control-flow keyword occurrences together (if/elif/for/while/except),
1 if it matches the return-ternary pattern, and 1 per `and`/`or`
logical-operator occurrence; the cyclomatic complexity is 1 plus the
sum of the per-line contributions. -/
theorem c7_python_per_line_amended (log2 : ℚ → ℚ)
    (sourceCode : List Char) :
    (analyzePythonComplexity log2 sourceCode).cyclomaticComplexity
      = ((1 + ((splitLines sourceCode).map pythonLineIncrement).sum
          : Nat) : ℚ) ∧
    (∀ line : List Char,
      (trimWs line).head? = some '#' ∨ trimWs line = [] →
        pythonLineIncrement line = 0) ∧
    (∀ line : List Char,
      pythonLineIncrement line
        ≤ 3 + countPyLogicalOps ((trimWs line).length + 1)
            (trimWs line)) := by
  refine ⟨?_, ?_, ?_⟩
  · show (((splitLines sourceCode).foldl
      (fun acc line => acc + pythonLineIncrement line) 1 : Nat) : ℚ) = _
    rw [foldl_add_eq_sum]
  · intro line hline
    unfold pythonLineIncrement
    rcases hline with h | h
    · simp [h]
    · simp [h]
  · intro line
    unfold pythonLineIncrement
    dsimp only
    split_ifs <;> omega

/-- Witness for `c7_python_per_line_amended`: a comment line
contributes nothing. -/
theorem c7_python_per_line_amended_witness :
    pythonLineIncrement ['#', 'x'] = 0 :=
  (c7_python_per_line_amended (fun _ => 0) []).2.1 ['#', 'x']
    (Or.inl rfl)

end AnalyzerTheorems

section TrackerTheorems

/-- C5: if the cache holds a live (non-expired) entry for a file, a
light (non-save-triggered) `analyzeDocument` call for that file is a
no-op — the tracker state, cache included, is unchanged — and any
sequence of such light analyses at times where the entry is still
live leaves the state unchanged. -/
theorem c5_light_analysis_noop {K : Type} [DecidableEq K]
    (ln log2 : ℚ → ℚ) (parse : List Char → Option TsNode)
    (s : MetricsTracker K) (document : TextDocument K)
    (e : CacheEntry (FileMetadata K)) (now : Nat)
    (hfound : mapGet s.trackedFiles.cache document.fileName = some e)
    (hlive : MetricCache.isEntryExpired now e = false) :
    analyzeDocument ln log2 parse s document false now = s ∧
    (∀ times : List Nat,
      (∀ t ∈ times, MetricCache.isEntryExpired t e = false) →
      times.foldl
        (fun st t => analyzeDocument ln log2 parse st document false t)
        s = s) := by
  have hstep : ∀ t : Nat, MetricCache.isEntryExpired t e = false →
      analyzeDocument ln log2 parse s document false t = s := by
    intro t ht
    have hget : MetricCache.get s.trackedFiles document.fileName t
        = (some e.data, s.trackedFiles) := by
      unfold MetricCache.get
      rw [hfound]
      dsimp only
      rw [ht]
      simp
    unfold analyzeDocument
    dsimp only
    rw [hget]
    simp
  refine ⟨hstep now hlive, ?_⟩
  intro times htimes
  induction times with
  | nil => rfl
  | cons t rest ih =>
      rw [List.foldl_cons,
        hstep t (htimes t (List.mem_cons_self t rest))]
      exact ih (fun t' ht' => htimes t' (List.mem_cons_of_mem _ ht'))

/-- Witness for `c5_light_analysis_noop` on a concrete one-entry
tracker: a light analysis at `t = 20` of the cached file changes
nothing. -/
theorem c5_light_analysis_noop_witness :
    mapGet sampleTracker.trackedFiles.cache sampleDocument.fileName
      = some sampleEntry ∧
    MetricCache.isEntryExpired 20 sampleEntry = false ∧
    analyzeDocument (fun _ => 0) (fun _ => 0) (fun _ => none)
      sampleTracker sampleDocument false 20 = sampleTracker :=
  ⟨rfl, rfl,
    (c5_light_analysis_noop (fun _ => 0) (fun _ => 0) (fun _ => none)
      sampleTracker sampleDocument sampleEntry 20 rfl rfl).1⟩

end TrackerTheorems

end CodePulse
